import Mathlib

/-!
A shallow embedding of the core logic of `egui_clickpack_db` (src/lib.rs):
the catalog data model, the filter/search pipeline, the popularity merge,
the pending-update drain, the background download task's status report,
the automatic destination-path computation and the catalog load pipeline.

The Rust `IndexMap<String, Entry>` (an insertion-ordered map) is embedded as
a `List (String × Entry)`; its operations `contains_key`, `get`/`get_mut` and
`insert` are embedded as `imContains`, `imGet` and `imInsert` below.  Rust
machine integers that are only stored and compared (`usize` sizes, the `u32`
download counter) are embedded as `Nat`; `PathBuf` is embedded as a list of
path components; raw HTTP bodies are embedded as `List Nat` (byte lists).
Effects (HTTP requests, JSON parsing, zip extraction, the filesystem) are
passed in as explicit function arguments or result values, mirroring the
`RequestFn` injection in the source.
-/

namespace ClickpackDb

/-- DownloadStatus from src/lib.rs lines 26-36: the per-entry download state
machine. `path` is a `PathBuf`, embedded as a list of components. -/
inductive DownloadStatus where
  | NotDownloaded
  | Downloading
  | Downloaded (path : List String) (do_select : Bool)
  | Error (msg : String)
deriving DecidableEq, Repr

/-- The `matches!(v.dwn_status, DownloadStatus::Downloaded { .. })` test used
by the tag filter (src/lib.rs line 226) and the table renderer. -/
def DownloadStatus.isDownloaded : DownloadStatus → Bool
  | .Downloaded _ _ => true
  | _ => false

/-- Entry from src/lib.rs lines 47-60.  The first four fields come from the
catalog JSON; `dwn_status`, `downloads` and `downloads_str` are marked
`#[serde(skip)]` in the source and evolve locally. -/
structure Entry where
  size : Nat
  uncompressed_size : Nat
  has_noise : Bool
  url : String
  dwn_status : DownloadStatus
  downloads : Nat
  downloads_str : String
deriving DecidableEq, Repr

/-- Database from src/lib.rs lines 38-45: `entries` is an
`IndexMap<String, Entry>`, embedded as an ordered association list. -/
structure Database where
  updated_at_unix : Int
  entries : List (String × Entry)
  hiatus : String
deriving DecidableEq, Repr

/-- Status from src/lib.rs lines 62-71: the catalog-level load status. -/
inductive Status where
  | NotLoaded
  | Loading
  | Error (msg : String)
  | Loaded (did_filter : Bool)
deriving DecidableEq, Repr

/-- Tags from src/lib.rs lines 73-77: the two tag-filter toggles. -/
structure Tags where
  noise : Bool
  downloaded : Bool
deriving DecidableEq, Repr

/-- Tags::has_any from src/lib.rs lines 80-83. -/
def Tags.has_any (t : Tags) : Bool :=
  t.noise || t.downloaded

/-- IndexMap::contains_key on the association-list embedding. -/
def imContains (m : List (String × Entry)) (k : String) : Bool :=
  m.any (fun p => decide (p.1 = k))

/-- IndexMap lookup (`get`) on the association-list embedding: the value
stored at the first (in a well-formed map, the only) occurrence of the key. -/
def imGet (m : List (String × Entry)) (k : String) : Option Entry :=
  match m with
  | [] => none
  | p :: rest => if p.1 = k then some p.2 else imGet rest k

/-- IndexMap::insert on the association-list embedding: if the key is
present, replace its value in place (keeping its position); otherwise append
the new pair at the end.  This matches `IndexMap::insert` semantics. -/
def imInsert (m : List (String × Entry)) (k : String) (v : Entry) : List (String × Entry) :=
  if imContains m k then
    m.map (fun p => if p.1 = k then (k, v) else p)
  else
    m ++ [(k, v)]

/-- The mutable fields of ClickpackDb (src/lib.rs lines 86-99) that the
pure update logic touches: the shared database's entries, the derived
filtered view, the search query, the tag toggles, the pending-update
mailbox and the queued clickpack-directory deletions. -/
structure DbState where
  entries : List (String × Entry)
  filtered_entries : List (String × Entry)
  search_query : String
  tags : Tags
  pending_update : List (String × Entry)
  pending_clickpack_delete : List (List String)
deriving DecidableEq, Repr

/-- The retain closure of the tag filter, src/lib.rs lines 221-231: drop an
entry if the noise tag is on and it has no noise, or if the downloaded tag
is on and it is not downloaded. -/
def retainTag (tags : Tags) (v : Entry) : Bool :=
  if tags.noise && !v.has_noise then false
  else if tags.downloaded && !v.dwn_status.isDownloaded then false
  else true

/-- Step 1-2 of update_filtered_entries (src/lib.rs lines 217-232): clone the
catalog entries and, if any tag is active, retain only entries passing the
tag predicate. -/
def applyTags (tags : Tags) (l : List (String × Entry)) : List (String × Entry) :=
  if tags.has_any then l.filter (fun p => retainTag tags p.2) else l

/-- Step 3 of update_filtered_entries (src/lib.rs lines 235-236):
`sort_by(|_, v1, _, v2| v2.downloads.cmp(&v1.downloads))`, a stable sort by
non-increasing download count.  `IndexMap::sort_by` is stable, so it is
embedded as `mergeSort`, which is stable. -/
def sortByDownloads (l : List (String × Entry)) : List (String × Entry) :=
  l.mergeSort (fun a b => decide (b.2.downloads ≤ a.2.downloads))

/-- The fuzzy-match score used as the search sort key (src/lib.rs lines
243-245): `matcher.fuzzy_match(k, &self.search_query).unwrap_or(0)`.  The
matcher itself is a third-party collaborator (`SkimMatcherV2`), so it is a
parameter of the embedding. -/
def searchScore (matcher : String → String → Option Int) (q k : String) : Int :=
  (matcher k q).getD 0

/-- Step 4 of update_filtered_entries (src/lib.rs lines 239-246): when the
search query is non-empty, retain only entries whose name fuzzy-matches the
query, then stably sort by `Reverse(score)`, i.e. by non-increasing score
(`sort_by_cached_key` is stable). -/
def applySearch (matcher : String → String → Option Int) (q : String)
    (l : List (String × Entry)) : List (String × Entry) :=
  if q = "" then l
  else
    (l.filter (fun p => (matcher p.1 q).isSome)).mergeSort
      (fun a b => decide (searchScore matcher q b.1 ≤ searchScore matcher q a.1))

/-- ClickpackDb::update_filtered_entries, src/lib.rs lines 216-247: rebuild
the filtered view from the catalog by applying the tag filter, the
popularity sort and the fuzzy search in order. -/
def update_filtered_entries (matcher : String → String → Option Int)
    (s : DbState) : DbState :=
  { s with filtered_entries :=
      applySearch matcher s.search_query (sortByDownloads (applyTags s.tags s.entries)) }

/-- One iteration of the popularity-merge loop in ClickpackDb::load_hiatus,
src/lib.rs lines 199-207: skip a zero count, otherwise set `downloads` and
the cached `downloads_str` on the catalog entry with exactly that name (in a
well-formed map there is at most one such entry). -/
def applyDownload (entries : List (String × Entry)) (name : String) (cnt : Nat) :
    List (String × Entry) :=
  if cnt = 0 then entries
  else entries.map (fun p =>
    if p.1 = name then (p.1, { p.2 with downloads := cnt, downloads_str := toString cnt })
    else p)

/-- The popularity merge of ClickpackDb::load_hiatus, src/lib.rs lines
197-207: fold the response pairs (a `HashMap<String, u32>`, so its keys are
distinct and its iteration order is irrelevant) into the catalog. -/
def mergeDownloads (entries : List (String × Entry)) (resp : List (String × Nat)) :
    List (String × Entry) :=
  resp.foldl (fun acc p => applyDownload acc p.1 p.2) entries

/-- Pointwise form of one popularity-merge step: what `applyDownload` does
to a single catalog pair. -/
def applyDownloadElem (name : String) (cnt : Nat) (p : String × Entry) : String × Entry :=
  if cnt = 0 then p
  else if p.1 = name then (p.1, { p.2 with downloads := cnt, downloads_str := toString cnt })
  else p

/-- Pointwise form of the whole popularity merge: the response folded over a
single catalog pair. -/
def elemMerge (resp : List (String × Nat)) (p : String × Entry) : String × Entry :=
  resp.foldl (fun q r => applyDownloadElem r.1 r.2 q) p

/-- One iteration of the pending-update drain loop, src/lib.rs lines
272-282: upsert the pending pair into the catalog and, only when the key is
already present in the filtered view, upsert it there too. -/
def drainOne (s : DbState) (kv : String × Entry) : DbState :=
  { s with
    entries := imInsert s.entries kv.1 kv.2,
    filtered_entries :=
      if imContains s.filtered_entries kv.1 then
        imInsert s.filtered_entries kv.1 kv.2
      else
        s.filtered_entries }

/-- ClickpackDb::update_pending_update, src/lib.rs lines 270-291: drain
every pending pair into the catalog (and conditionally the filtered view),
clear the mailbox, and drain the queued directory deletions (the
`remove_dir_all` filesystem effect is outside the pure state). -/
def update_pending_update (s : DbState) : DbState :=
  { s.pending_update.foldl drainOne s with
    pending_update := [],
    pending_clickpack_delete := [] }

/-- The body of the background thread spawned by ClickpackDb::download_entry,
src/lib.rs lines 350-364: the fetched archive bytes (or the fetch error) and
the extraction outcome are passed in as explicit results of the injected
request function and of `zip_extract::extract`.  Returns the entry whose
status the task reports. -/
def download_task (entry : Entry) (fetchRes : Except String (List Nat))
    (extractRes : List Nat → Except String Unit) (path : List String)
    (do_select : Bool) : Entry :=
  match fetchRes with
  | .ok body =>
    match extractRes body with
    | .error e => { entry with dwn_status := DownloadStatus.Error e }
    | .ok _ => { entry with dwn_status := DownloadStatus.Downloaded path do_select }
  | .error e => { entry with dwn_status := DownloadStatus.Error e }

/-- The state effect of the background download task, src/lib.rs line 366:
the reported entry is inserted into the pending-update mailbox; the shared
catalog and the filtered view are not touched by the task. -/
def download_entry_report (s : DbState) (name : String) (entry : Entry)
    (fetchRes : Except String (List Nat)) (extractRes : List Nat → Except String Unit)
    (path : List String) (do_select : Bool) : DbState :=
  { s with pending_update :=
      imInsert s.pending_update name (download_task entry fetchRes extractRes path do_select) }

/-- Helper for the termination of the destination-name loop: a predicate
strictly shrinks a count when it implies another predicate and misses a
member the other hits. -/
theorem countP_lt_of_mem {α : Type} {l : List α} {p q : α → Bool}
    (himp : ∀ a, p a = true → q a = true) (a : α) (ha : a ∈ l)
    (hq : q a = true) (hp : p a = false) : l.countP p < l.countP q := by
  induction l with
  | nil => cases ha
  | cons b t ih =>
    rcases List.mem_cons.mp ha with rfl | hat
    · rw [List.countP_cons, List.countP_cons, hp, hq]
      simp only [if_false, if_true, Bool.false_eq_true, Bool.true_eq_false]
      have := List.countP_mono_left (l := t) (p := p) (q := q) (fun x _ hx => himp x hx)
      omega
    · rw [List.countP_cons, List.countP_cons]
      have h1 := ih hat
      have h2 : (if p b = true then 1 else 0) ≤ (if q b = true then 1 else 0) := by
        by_cases hb : p b = true
        · rw [if_pos hb, if_pos (himp b hb)]
        · rw [if_neg hb]; omega
      omega

/-- The destination-name collision loop of ClickpackDb::manage_row,
src/lib.rs lines 577-581: while a directory of the candidate name exists
under the base directory, append one underscore and retry.  The filesystem
is embedded as the finite list `existing` of directory names that exist
under the base directory. -/
def freeName (existing : List String) (name : String) : String :=
  if h : name ∈ existing then freeName existing (name ++ "_") else name
termination_by existing.countP (fun s => decide (name.length ≤ s.length))
decreasing_by
  apply countP_lt_of_mem (a := name) _ h
  · simp
  · have h1 : "_".length = 1 := rfl
    simp only [String.length_append, decide_eq_false_iff_not, h1]
    omega
  · intro a hpa
    simp only [String.length_append, decide_eq_true_eq] at hpa ⊢
    omega

/-- The automatic destination path built by ClickpackDb::manage_row,
src/lib.rs lines 563-581: the base directory joined with the first
collision-free extension of the entry name. -/
def autoDestPath (base : List String) (existing : List String) (name : String) :
    List String :=
  base ++ [freeName existing name]

/-- A string of `k` underscores, used to state what the collision loop
appends. -/
def underscores : Nat → String
  | 0 => ""
  | k + 1 => underscores k ++ "_"

/-- The fields of a catalog entry that are read from the remote catalog
JSON (the non-`#[serde(skip)]` fields of Entry, src/lib.rs lines 47-52). -/
structure RawEntry where
  size : Nat
  uncompressed_size : Nat
  has_noise : Bool
  url : String
deriving DecidableEq, Repr

/-- Deserialization of one catalog entry (serde on Entry, src/lib.rs lines
47-60): the three `#[serde(skip)]` fields take their `Default` values —
`DownloadStatus::NotDownloaded` (the `#[default]` variant, line 28-29),
`0`, and the empty string. -/
def parseEntry (r : RawEntry) : Entry :=
  { size := r.size, uncompressed_size := r.uncompressed_size,
    has_noise := r.has_noise, url := r.url,
    dwn_status := DownloadStatus.NotDownloaded, downloads := 0, downloads_str := "" }

/-- Deserialization of the whole catalog (serde on Database, src/lib.rs
lines 38-45): every entry is parsed with its local fields defaulted. -/
def parseDatabase (updated : Int) (raw : List (String × RawEntry)) (hiatus : String) :
    Database :=
  { updated_at_unix := updated,
    entries := raw.map (fun p => (p.1, parseEntry p.2)),
    hiatus := hiatus }

/-- The load pipeline of ClickpackDb::load_database, src/lib.rs lines
148-177, up to the point where the catalog and status are written: the HTTP
fetch result and the JSON parse are explicit parameters.  On a fetch error
the status becomes `Error` and the database is untouched; on a parse error
likewise (the `return` in the match arm fires before the assignment to the
database completes); on success the database is replaced wholesale and the
status becomes `Loaded { did_filter: false }`. -/
def load_database_step (old : Database) (fetchRes : Except String (List Nat))
    (parse : List Nat → Except String Database) : Database × Status :=
  match fetchRes with
  | .ok body =>
    match parse body with
    | .ok d => (d, Status.Loaded false)
    | .error e => (old, Status.Error e)
  | .error e => (old, Status.Error e)

/-! ### Lemmas about the association-list embedding of IndexMap -/

theorem imContains_eq_true_iff (m : List (String × Entry)) (k : String) :
    imContains m k = true ↔ k ∈ m.map Prod.fst := by
  constructor
  · intro h
    simp only [imContains, List.any_eq_true, decide_eq_true_eq] at h
    obtain ⟨p, hp, hk⟩ := h
    exact List.mem_map.mpr ⟨p, hp, hk⟩
  · intro h
    obtain ⟨p, hp, hk⟩ := List.mem_map.mp h
    simp only [imContains, List.any_eq_true, decide_eq_true_eq]
    exact ⟨p, hp, hk⟩

theorem imGet_map_replace_of_contains {m : List (String × Entry)} {k : String}
    (v : Entry) (h : imContains m k = true) :
    imGet (m.map (fun p => if p.1 = k then (k, v) else p)) k = some v := by
  induction m with
  | nil => simp [imContains] at h
  | cons p rest ih =>
    by_cases hp : p.1 = k
    · simp [imGet, hp]
    · have h' : imContains rest k = true := by
        simp only [imContains, List.any_cons, Bool.or_eq_true, decide_eq_true_eq] at h
        rcases h with h | h
        · exact absurd h hp
        · simpa [imContains] using h
      simp only [List.map_cons, if_neg hp, imGet, if_neg hp]
      exact ih h'

theorem imGet_append_of_not_contains {m : List (String × Entry)} {k : String}
    (l : List (String × Entry)) (h : imContains m k = false) :
    imGet (m ++ l) k = imGet l k := by
  induction m with
  | nil => simp
  | cons p rest ih =>
    simp only [imContains, List.any_cons, Bool.or_eq_false_iff, decide_eq_false_iff_not] at h
    simp only [List.cons_append, imGet, if_neg h.1]
    exact ih (by simp [imContains, h.2])

theorem imGet_imInsert_self (m : List (String × Entry)) (k : String) (v : Entry) :
    imGet (imInsert m k v) k = some v := by
  unfold imInsert
  by_cases h : imContains m k
  · rw [if_pos h]
    exact imGet_map_replace_of_contains v h
  · rw [if_neg h]
    rw [imGet_append_of_not_contains _ (by simpa using h)]
    simp [imGet]

theorem imGet_map_replace_ne (m : List (String × Entry)) {k' k : String} (v : Entry)
    (h : k' ≠ k) :
    imGet (m.map (fun p => if p.1 = k' then (k', v) else p)) k = imGet m k := by
  induction m with
  | nil => rfl
  | cons p rest ih =>
    by_cases hp : p.1 = k'
    · have hpk : ¬p.1 = k := fun hk => h (hp ▸ hk)
      simp only [List.map_cons, if_pos hp, imGet, if_neg h, if_neg hpk]
      exact ih
    · simp only [List.map_cons, if_neg hp, imGet]
      by_cases hk : p.1 = k
      · simp [hk]
      · simp only [if_neg hk]
        exact ih

theorem imGet_append_single_ne (m : List (String × Entry)) {k' k : String} (v : Entry)
    (h : k' ≠ k) : imGet (m ++ [(k', v)]) k = imGet m k := by
  induction m with
  | nil => simp [imGet, if_neg h]
  | cons p rest ih =>
    simp only [List.cons_append, imGet]
    by_cases hk : p.1 = k
    · simp [hk]
    · simp only [if_neg hk]
      exact ih

theorem imGet_imInsert_ne (m : List (String × Entry)) {k' k : String} (v : Entry)
    (h : k' ≠ k) : imGet (imInsert m k' v) k = imGet m k := by
  unfold imInsert
  by_cases hc : imContains m k'
  · rw [if_pos hc]
    exact imGet_map_replace_ne m v h
  · rw [if_neg hc]
    exact imGet_append_single_ne m v h

theorem map_fst_imInsert_of_contains {m : List (String × Entry)} {k : String}
    (v : Entry) (h : imContains m k = true) :
    (imInsert m k v).map Prod.fst = m.map Prod.fst := by
  unfold imInsert
  rw [if_pos h, List.map_map]
  apply List.map_congr_left
  intro p _
  by_cases hp : p.1 = k
  · simp [hp]
  · simp [hp]

/-! ### Stability of the sorting steps -/

/-- A stable sort does not move elements the comparison cannot distinguish:
for a predicate on which the comparison always answers `true`, filtering the
sorted list gives the same list as filtering the input. -/
theorem mergeSort_filter_stable {α : Type} (l : List α) (le : α → α → Bool)
    (htrans : ∀ a b c, le a b = true → le b c = true → le a c = true)
    (htotal : ∀ a b, (le a b || le b a) = true)
    (p : α → Bool) (hp : ∀ a b, p a = true → p b = true → le a b = true) :
    (l.mergeSort le).filter p = l.filter p := by
  have hsub : List.Sublist (l.filter p) l := List.filter_sublist l
  have hpw : (l.filter p).Pairwise (fun a b => le a b = true) := by
    apply List.pairwise_of_forall_mem_list
    intro a ha b hb
    exact hp a b (List.mem_filter.mp ha).2 (List.mem_filter.mp hb).2
  have h1 : List.Sublist (l.filter p) (l.mergeSort le) :=
    List.sublist_mergeSort htrans htotal hpw hsub
  have h2 : List.Sublist (l.filter p) ((l.mergeSort le).filter p) := by
    have h3 := h1.filter p
    rwa [List.filter_eq_self.mpr (fun a ha => (List.mem_filter.mp ha).2)] at h3
  have hlen : (l.filter p).length = ((l.mergeSort le).filter p).length := by
    rw [← List.countP_eq_length_filter, ← List.countP_eq_length_filter]
    exact ((List.mergeSort_perm l le).countP_eq p).symm
  exact (h2.eq_of_length hlen).symm

/-! ### Membership lemmas for the filter/search pipeline -/

theorem mem_of_mem_applyTags {tags : Tags} {l : List (String × Entry)}
    {kv : String × Entry} (h : kv ∈ applyTags tags l) : kv ∈ l := by
  unfold applyTags at h
  split at h
  · exact (List.mem_filter.mp h).1
  · exact h

theorem mem_sortByDownloads {l : List (String × Entry)} {kv : String × Entry} :
    kv ∈ sortByDownloads l ↔ kv ∈ l := List.mem_mergeSort

theorem mem_of_mem_applySearch {matcher : String → String → Option Int} {q : String}
    {l : List (String × Entry)} {kv : String × Entry}
    (h : kv ∈ applySearch matcher q l) : kv ∈ l := by
  unfold applySearch at h
  split at h
  · exact h
  · exact (List.mem_filter.mp (List.mem_mergeSort.mp h)).1

theorem retainTag_noise {tags : Tags} {v : Entry} (h : retainTag tags v = true)
    (hn : tags.noise = true) : v.has_noise = true := by
  cases hhn : v.has_noise with
  | true => rfl
  | false =>
    exfalso
    rw [retainTag, if_pos (by simp [hn, hhn])] at h
    exact Bool.false_ne_true h

theorem retainTag_downloaded {tags : Tags} {v : Entry} (h : retainTag tags v = true)
    (hd : tags.downloaded = true) : v.dwn_status.isDownloaded = true := by
  cases hhd : v.dwn_status.isDownloaded with
  | true => rfl
  | false =>
    exfalso
    unfold retainTag at h
    by_cases h1 : (tags.noise && !v.has_noise) = true
    · rw [if_pos h1] at h
      exact Bool.false_ne_true h
    · rw [if_neg h1, if_pos (by simp [hd, hhd])] at h
      exact Bool.false_ne_true h

theorem applyTags_mem_spec {tags : Tags} {l : List (String × Entry)}
    {kv : String × Entry} (h : kv ∈ applyTags tags l) :
    (tags.noise = true → kv.2.has_noise = true) ∧
    (tags.downloaded = true → kv.2.dwn_status.isDownloaded = true) := by
  unfold applyTags at h
  by_cases ha : tags.has_any = true
  · rw [if_pos ha] at h
    have hr := (List.mem_filter.mp h).2
    exact ⟨retainTag_noise hr, retainTag_downloaded hr⟩
  · have hna : tags.noise = false ∧ tags.downloaded = false := by
      simpa [Tags.has_any] using ha
    constructor
    · intro h'
      rw [hna.1] at h'
      exact absurd h' (by simp)
    · intro h'
      rw [hna.2] at h'
      exact absurd h' (by simp)

/-! ### Claim C1: the tag filter retains exactly the right entries -/

/-- C1: every entry of the recomputed filtered view satisfies all active tag
predicates (`has_noise` under the noise tag, a `Downloaded` status under the
downloaded tag), and with no active tag and an empty search string the view
contains exactly the catalog's entries (as a permutation — step 3 reorders
them by popularity). -/
theorem filtered_entries_tags_spec (matcher : String → String → Option Int)
    (s : DbState) :
    (∀ kv ∈ (update_filtered_entries matcher s).filtered_entries,
      (s.tags.noise = true → kv.2.has_noise = true) ∧
      (s.tags.downloaded = true → kv.2.dwn_status.isDownloaded = true)) ∧
    (s.tags.noise = false → s.tags.downloaded = false → s.search_query = "" →
      ((update_filtered_entries matcher s).filtered_entries).Perm s.entries) := by
  constructor
  · intro kv hkv
    have h1 : kv ∈ sortByDownloads (applyTags s.tags s.entries) :=
      mem_of_mem_applySearch hkv
    exact applyTags_mem_spec (mem_sortByDownloads.mp h1)
  · intro hn hd hq
    show (applySearch matcher s.search_query
      (sortByDownloads (applyTags s.tags s.entries))).Perm s.entries
    rw [hq]
    unfold applySearch
    rw [if_pos rfl]
    have hat : applyTags s.tags s.entries = s.entries := by
      unfold applyTags
      rw [if_neg (by simp [Tags.has_any, hn, hd])]
    rw [hat]
    exact List.mergeSort_perm _ _

/-- Witness for C1 at a concrete state: one catalog entry, no tags, empty
query; the filtered view is a permutation of the catalog. -/
theorem filtered_entries_tags_spec_witness :
    ((update_filtered_entries (fun _ _ => none)
      { entries := [("a", { size := 1, uncompressed_size := 1, has_noise := false, url := "u", dwn_status := DownloadStatus.NotDownloaded, downloads := 0, downloads_str := "" })],
        filtered_entries := [], search_query := "", tags := { noise := false, downloaded := false },
        pending_update := [], pending_clickpack_delete := [] }).filtered_entries).Perm
      [("a", { size := 1, uncompressed_size := 1, has_noise := false, url := "u", dwn_status := DownloadStatus.NotDownloaded, downloads := 0, downloads_str := "" })] :=
  (filtered_entries_tags_spec (fun _ _ => none)
    { entries := [("a", { size := 1, uncompressed_size := 1, has_noise := false, url := "u", dwn_status := DownloadStatus.NotDownloaded, downloads := 0, downloads_str := "" })],
      filtered_entries := [], search_query := "", tags := { noise := false, downloaded := false },
      pending_update := [], pending_clickpack_delete := [] }).2 rfl rfl rfl

/-! ### Claim C2: the popularity sort is ordered and stable -/

/-- C2: with an empty search string the filtered view is sorted by
non-increasing download count; entries with equal counts keep their prior
relative order (filtering the view to any fixed count gives exactly the
tag-filtered catalog restricted to that count), and the tag-filter output
itself is a sublist of the catalog, i.e. in catalog order. -/
theorem filtered_entries_sorted_spec (matcher : String → String → Option Int)
    (s : DbState) (hq : s.search_query = "") :
    ((update_filtered_entries matcher s).filtered_entries).Pairwise
      (fun a b => b.2.downloads ≤ a.2.downloads) ∧
    (∀ d : Nat, ((update_filtered_entries matcher s).filtered_entries).filter
        (fun p => decide (p.2.downloads = d)) =
      (applyTags s.tags s.entries).filter (fun p => decide (p.2.downloads = d))) ∧
    (applyTags s.tags s.entries).Sublist s.entries := by
  have htrans : ∀ a b c : String × Entry,
      decide (b.2.downloads ≤ a.2.downloads) = true →
      decide (c.2.downloads ≤ b.2.downloads) = true →
      decide (c.2.downloads ≤ a.2.downloads) = true := by
    intro a b c hab hbc
    simp only [decide_eq_true_eq] at hab hbc ⊢
    omega
  have htotal : ∀ a b : String × Entry,
      (decide (b.2.downloads ≤ a.2.downloads) ||
        decide (a.2.downloads ≤ b.2.downloads)) = true := by
    intro a b
    simp only [Bool.or_eq_true, decide_eq_true_eq]
    omega
  have hout : (update_filtered_entries matcher s).filtered_entries =
      sortByDownloads (applyTags s.tags s.entries) := by
    show applySearch matcher s.search_query (sortByDownloads (applyTags s.tags s.entries)) = _
    rw [hq]
    unfold applySearch
    rw [if_pos rfl]
  refine ⟨?_, ?_, ?_⟩
  · rw [hout]
    have hs := List.sorted_mergeSort htrans htotal (applyTags s.tags s.entries)
    exact hs.imp (fun h => of_decide_eq_true h)
  · intro d
    rw [hout]
    unfold sortByDownloads
    apply mergeSort_filter_stable _ _ htrans htotal
    intro a b hpa hpb
    simp only [decide_eq_true_eq] at hpa hpb ⊢
    omega
  · unfold applyTags
    split
    · exact List.filter_sublist _
    · exact List.Sublist.refl _

/-- Witness for C2 at a concrete state with two entries of distinct
popularity, discharging the empty-search hypothesis. -/
theorem filtered_entries_sorted_spec_witness :
    ("" : String) = "" ∧
    (((update_filtered_entries (fun _ _ => none)
      { entries := [("a", { size := 1, uncompressed_size := 1, has_noise := false, url := "u", dwn_status := DownloadStatus.NotDownloaded, downloads := 1, downloads_str := "1" }), ("b", { size := 2, uncompressed_size := 2, has_noise := true, url := "v", dwn_status := DownloadStatus.NotDownloaded, downloads := 2, downloads_str := "2" })],
        filtered_entries := [], search_query := "", tags := { noise := false, downloaded := false },
        pending_update := [], pending_clickpack_delete := [] }).filtered_entries).Pairwise
      (fun a b => b.2.downloads ≤ a.2.downloads)) :=
  ⟨rfl,
    (filtered_entries_sorted_spec (fun _ _ => none)
      { entries := [("a", { size := 1, uncompressed_size := 1, has_noise := false, url := "u", dwn_status := DownloadStatus.NotDownloaded, downloads := 1, downloads_str := "1" }), ("b", { size := 2, uncompressed_size := 2, has_noise := true, url := "v", dwn_status := DownloadStatus.NotDownloaded, downloads := 2, downloads_str := "2" })],
        filtered_entries := [], search_query := "", tags := { noise := false, downloaded := false },
        pending_update := [], pending_clickpack_delete := [] } rfl).1⟩

/-! ### Claim C3: the fuzzy-search step retains, drops and reorders -/

/-- C3: with a non-empty search string, every entry of the recomputed view
fuzzy-matches the query by name, entries whose name does not match are
absent regardless of tag state, and the view is sorted by non-increasing
fuzzy score (`searchScore` treats a missing score as 0); ties keep the order
in which entries entered the sort (filtering the view to any fixed score
gives exactly the retained entries, in their pre-sort order). -/
theorem filtered_entries_search_spec (matcher : String → String → Option Int)
    (s : DbState) (hq : s.search_query ≠ "") :
    (∀ kv ∈ (update_filtered_entries matcher s).filtered_entries,
      (matcher kv.1 s.search_query).isSome = true) ∧
    (∀ kv : String × Entry, matcher kv.1 s.search_query = none →
      kv ∉ (update_filtered_entries matcher s).filtered_entries) ∧
    ((update_filtered_entries matcher s).filtered_entries).Pairwise
      (fun a b => searchScore matcher s.search_query b.1 ≤
        searchScore matcher s.search_query a.1) ∧
    (∀ sc : Int, ((update_filtered_entries matcher s).filtered_entries).filter
        (fun p => decide (searchScore matcher s.search_query p.1 = sc)) =
      ((sortByDownloads (applyTags s.tags s.entries)).filter
          (fun p => (matcher p.1 s.search_query).isSome)).filter
        (fun p => decide (searchScore matcher s.search_query p.1 = sc))) := by
  have htrans : ∀ a b c : String × Entry,
      decide (searchScore matcher s.search_query b.1 ≤
        searchScore matcher s.search_query a.1) = true →
      decide (searchScore matcher s.search_query c.1 ≤
        searchScore matcher s.search_query b.1) = true →
      decide (searchScore matcher s.search_query c.1 ≤
        searchScore matcher s.search_query a.1) = true := by
    intro a b c hab hbc
    simp only [decide_eq_true_eq] at hab hbc ⊢
    omega
  have htotal : ∀ a b : String × Entry,
      (decide (searchScore matcher s.search_query b.1 ≤
          searchScore matcher s.search_query a.1) ||
        decide (searchScore matcher s.search_query a.1 ≤
          searchScore matcher s.search_query b.1)) = true := by
    intro a b
    simp only [Bool.or_eq_true, decide_eq_true_eq]
    omega
  have hout : (update_filtered_entries matcher s).filtered_entries =
      ((sortByDownloads (applyTags s.tags s.entries)).filter
          (fun p => (matcher p.1 s.search_query).isSome)).mergeSort
        (fun a b => decide (searchScore matcher s.search_query b.1 ≤
          searchScore matcher s.search_query a.1)) := by
    show applySearch matcher s.search_query
      (sortByDownloads (applyTags s.tags s.entries)) = _
    unfold applySearch
    rw [if_neg hq]
  have hmem : ∀ kv ∈ (update_filtered_entries matcher s).filtered_entries,
      (matcher kv.1 s.search_query).isSome = true := by
    intro kv hkv
    rw [hout] at hkv
    exact (List.mem_filter.mp (List.mem_mergeSort.mp hkv)).2
  refine ⟨hmem, ?_, ?_, ?_⟩
  · intro kv hnone hkv
    have := hmem kv hkv
    rw [hnone] at this
    exact Bool.false_ne_true this
  · rw [hout]
    have hs := List.sorted_mergeSort htrans htotal
      ((sortByDownloads (applyTags s.tags s.entries)).filter
        (fun p => (matcher p.1 s.search_query).isSome))
    exact hs.imp (fun h => of_decide_eq_true h)
  · intro sc
    rw [hout]
    apply mergeSort_filter_stable _ _ htrans htotal
    intro a b hpa hpb
    simp only [decide_eq_true_eq] at hpa hpb ⊢
    omega

/-- Witness for C3 at a concrete state with a non-empty query and a matcher
accepting exactly the queried name. -/
theorem filtered_entries_search_spec_witness :
    ("a" : String) ≠ "" ∧
    (∀ kv ∈ (update_filtered_entries (fun k q => if k = q then some 1 else none)
      { entries := [("a", { size := 1, uncompressed_size := 1, has_noise := false, url := "u", dwn_status := DownloadStatus.NotDownloaded, downloads := 0, downloads_str := "" }), ("b", { size := 2, uncompressed_size := 2, has_noise := true, url := "v", dwn_status := DownloadStatus.NotDownloaded, downloads := 2, downloads_str := "2" })],
        filtered_entries := [], search_query := "a", tags := { noise := false, downloaded := false },
        pending_update := [], pending_clickpack_delete := [] }).filtered_entries,
      ((fun (k q : String) => if k = q then some (1 : Int) else none) kv.1 "a").isSome = true) :=
  ⟨by decide,
    (filtered_entries_search_spec (fun k q => if k = q then some 1 else none)
      { entries := [("a", { size := 1, uncompressed_size := 1, has_noise := false, url := "u", dwn_status := DownloadStatus.NotDownloaded, downloads := 0, downloads_str := "" }), ("b", { size := 2, uncompressed_size := 2, has_noise := true, url := "v", dwn_status := DownloadStatus.NotDownloaded, downloads := 2, downloads_str := "2" })],
        filtered_entries := [], search_query := "a", tags := { noise := false, downloaded := false },
        pending_update := [], pending_clickpack_delete := [] } (by decide)).1⟩

/-! ### Claim C9: recomputing the filtered view is idempotent -/

/-- C9: recomputing the filtered view twice in succession with unchanged
inputs (same catalog entries, same tag toggles, same search string) yields an
identical ordered view: `update_filtered_entries` rebuilds the view purely
from the catalog, tags and query, none of which it modifies. -/
theorem update_filtered_entries_idem (matcher : String → String → Option Int)
    (s : DbState) :
    update_filtered_entries matcher (update_filtered_entries matcher s) =
      update_filtered_entries matcher s := rfl

/-! ### Claim C8: catalog load failure semantics -/

/-- C8: for every catalog-load attempt, a fetch error or a parse error sets
the status to `Error` carrying that failure's message and leaves the
database unchanged; a successful fetch-and-parse replaces the database
wholesale and sets the status to `Loaded { did_filter := false }`. -/
theorem load_database_error_handling (old : Database)
    (fetchRes : Except String (List Nat)) (parse : List Nat → Except String Database) :
    (∀ e, fetchRes = Except.error e →
      load_database_step old fetchRes parse = (old, Status.Error e)) ∧
    (∀ body e, fetchRes = Except.ok body → parse body = Except.error e →
      load_database_step old fetchRes parse = (old, Status.Error e)) ∧
    (∀ body d, fetchRes = Except.ok body → parse body = Except.ok d →
      load_database_step old fetchRes parse = (d, Status.Loaded false)) := by
  refine ⟨?_, ?_, ?_⟩
  · intro e he
    subst he
    rfl
  · intro body e hb hp
    subst hb
    simp [load_database_step, hp]
  · intro body d hb hp
    subst hb
    simp [load_database_step, hp]

/-- Witness for C8 at concrete inputs: a failed fetch keeps the database and
reports the error. -/
theorem load_database_error_handling_witness :
    load_database_step { updated_at_unix := 0, entries := [], hiatus := "" }
        (Except.error "boom") (fun _ => Except.error "parse") =
      ({ updated_at_unix := 0, entries := [], hiatus := "" }, Status.Error "boom") :=
  (load_database_error_handling { updated_at_unix := 0, entries := [], hiatus := "" }
    (Except.error "boom") (fun _ => Except.error "parse")).1 "boom" rfl

/-! ### Claim C6: the background download task's status report -/

/-- C6: the spawned download task reports `Downloaded { path, do_select }`
with `do_select` equal to the value passed at spawn time when fetch and
extraction succeed, reports `Error` with the failure message verbatim when
either fails, and in every case writes the report into the pending-update
mailbox, never into the shared catalog or the filtered view. -/
theorem download_entry_report_spec (s : DbState) (name : String) (entry : Entry)
    (fetchRes : Except String (List Nat)) (extractRes : List Nat → Except String Unit)
    (path : List String) (do_sel : Bool) :
    (download_entry_report s name entry fetchRes extractRes path do_sel).entries =
        s.entries ∧
    (download_entry_report s name entry fetchRes extractRes path do_sel).filtered_entries =
        s.filtered_entries ∧
    imGet (download_entry_report s name entry fetchRes extractRes path do_sel).pending_update
        name = some (download_task entry fetchRes extractRes path do_sel) ∧
    (∀ body, fetchRes = Except.ok body → extractRes body = Except.ok () →
      (download_task entry fetchRes extractRes path do_sel).dwn_status =
        DownloadStatus.Downloaded path do_sel) ∧
    (∀ e, fetchRes = Except.error e →
      (download_task entry fetchRes extractRes path do_sel).dwn_status =
        DownloadStatus.Error e) ∧
    (∀ body e, fetchRes = Except.ok body → extractRes body = Except.error e →
      (download_task entry fetchRes extractRes path do_sel).dwn_status =
        DownloadStatus.Error e) := by
  refine ⟨rfl, rfl, imGet_imInsert_self _ _ _, ?_, ?_, ?_⟩
  · intro body hb hx
    subst hb
    simp [download_task, hx]
  · intro e he
    subst he
    rfl
  · intro body e hb hx
    subst hb
    simp [download_task, hx]

/-! ### Claim C10: freshly parsed entries carry no local download state -/

/-- C10: every entry of a freshly parsed catalog has
`dwn_status = NotDownloaded`, a zero download count and an empty cached
downloads string — the `#[serde(skip)]` fields are never populated from the
catalog JSON, so a successful refresh discards all previously tracked
per-entry download state. -/
theorem parse_database_fresh (updated : Int) (raw : List (String × RawEntry))
    (hiatus : String) :
    ∀ kv ∈ (parseDatabase updated raw hiatus).entries,
      kv.2.dwn_status = DownloadStatus.NotDownloaded ∧
      kv.2.downloads = 0 ∧ kv.2.downloads_str = "" := by
  intro kv hkv
  simp only [parseDatabase, List.mem_map] at hkv
  obtain ⟨p, _, rfl⟩ := hkv
  exact ⟨rfl, rfl, rfl⟩

/-- Witness for C10 at a concrete one-entry catalog. -/
theorem parse_database_fresh_witness :
    ("a", parseEntry { size := 1, uncompressed_size := 2, has_noise := true, url := "u" }) ∈
        (parseDatabase 7
          [("a", { size := 1, uncompressed_size := 2, has_noise := true, url := "u" })]
          "h").entries ∧
      (parseEntry { size := 1, uncompressed_size := 2, has_noise := true, url := "u" }).dwn_status = DownloadStatus.NotDownloaded ∧
      (parseEntry { size := 1, uncompressed_size := 2, has_noise := true, url := "u" }).downloads = 0 ∧
      (parseEntry { size := 1, uncompressed_size := 2, has_noise := true, url := "u" }).downloads_str = "" :=
  ⟨by decide,
    parse_database_fresh 7
      [("a", { size := 1, uncompressed_size := 2, has_noise := true, url := "u" })] "h"
      ("a", parseEntry { size := 1, uncompressed_size := 2, has_noise := true, url := "u" })
      (by decide)⟩

/-! ### Claim C4: the popularity merge -/

theorem applyDownload_eq_map (entries : List (String × Entry)) (name : String)
    (cnt : Nat) :
    applyDownload entries name cnt = entries.map (applyDownloadElem name cnt) := by
  unfold applyDownload applyDownloadElem
  by_cases h : cnt = 0
  · rw [if_pos h]
    have he : (fun p : String × Entry => if cnt = 0 then p else
        if p.1 = name then (p.1, { p.2 with downloads := cnt, downloads_str := toString cnt })
        else p) = fun p => p := by
      funext p
      rw [if_pos h]
    rw [he, List.map_id']
  · rw [if_neg h]
    apply List.map_congr_left
    intro p _
    rw [if_neg h]

theorem mergeDownloads_eq_map (resp : List (String × Nat)) :
    ∀ entries : List (String × Entry),
      mergeDownloads entries resp = entries.map (elemMerge resp) := by
  induction resp with
  | nil =>
    intro entries
    show entries = entries.map (fun p => p)
    rw [List.map_id']
  | cons r rs ih =>
    intro entries
    show mergeDownloads (applyDownload entries r.1 r.2) rs = _
    rw [ih, applyDownload_eq_map, List.map_map]
    apply List.map_congr_left
    intro p _
    rfl

theorem applyDownloadElem_fst (name : String) (cnt : Nat) (p : String × Entry) :
    (applyDownloadElem name cnt p).1 = p.1 := by
  unfold applyDownloadElem
  by_cases h : cnt = 0
  · rw [if_pos h]
  · rw [if_neg h]
    by_cases hp : p.1 = name
    · rw [if_pos hp]
    · rw [if_neg hp]

theorem elemMerge_of_not_mem (resp : List (String × Nat)) (p : String × Entry)
    (h : p.1 ∉ resp.map Prod.fst) : elemMerge resp p = p := by
  induction resp with
  | nil => rfl
  | cons r rs ih =>
    have hne : p.1 ≠ r.1 := fun he => h (by simp [he])
    have hstep : applyDownloadElem r.1 r.2 p = p := by
      unfold applyDownloadElem
      by_cases hc : r.2 = 0
      · rw [if_pos hc]
      · rw [if_neg hc, if_neg hne]
    show elemMerge rs (applyDownloadElem r.1 r.2 p) = p
    rw [hstep]
    exact ih (fun hm => h (by simp [List.mem_map] at hm ⊢; tauto))

theorem elemMerge_eq (resp : List (String × Nat)) (p : String × Entry)
    (hnd : (resp.map Prod.fst).Nodup) :
    elemMerge resp p = (match resp.lookup p.1 with
      | none => p
      | some c => if c = 0 then p
        else (p.1, { p.2 with downloads := c, downloads_str := toString c })) := by
  induction resp with
  | nil => rfl
  | cons r rs ih =>
    obtain ⟨n, c⟩ := r
    simp only [List.map_cons, List.nodup_cons] at hnd
    by_cases hpn : p.1 = n
    · have hbeq : (p.1 == n) = true := beq_iff_eq.mpr hpn
      have hlk : ((n, c) :: rs).lookup p.1 = some c := by
        simp [List.lookup, hbeq]
      rw [hlk]
      show elemMerge rs (applyDownloadElem n c p) =
        if c = 0 then p
        else (p.1, { p.2 with downloads := c, downloads_str := toString c })
      by_cases hc : c = 0
      · have hstep : applyDownloadElem n c p = p := by
          unfold applyDownloadElem
          rw [if_pos hc]
        rw [hstep, if_pos hc]
        exact elemMerge_of_not_mem rs p (hpn ▸ hnd.1)
      · have hstep : applyDownloadElem n c p =
            (p.1, { p.2 with downloads := c, downloads_str := toString c }) := by
          unfold applyDownloadElem
          rw [if_neg hc, if_pos hpn]
        rw [hstep, if_neg hc]
        exact elemMerge_of_not_mem rs _ (hpn ▸ hnd.1)
    · have hbeq : (p.1 == n) = false := beq_eq_false_iff_ne.mpr hpn
      have hlk : ((n, c) :: rs).lookup p.1 = rs.lookup p.1 := by
        simp [List.lookup, hbeq]
      rw [hlk]
      have hstep : applyDownloadElem n c p = p := by
        unfold applyDownloadElem
        by_cases hc : c = 0
        · rw [if_pos hc]
        · rw [if_neg hc, if_neg hpn]
      show elemMerge rs (applyDownloadElem n c p) = _
      rw [hstep]
      exact ih hnd.2

/-- C4: the popularity merge of `load_hiatus` sets `downloads` (and its
cached string form) exactly on the catalog entries whose name equals a
response key carrying a nonzero count; zero counts are skipped, response
names absent from the catalog are ignored (the merged catalog has the same
name sequence — nothing is added), and every other entry is unchanged. -/
theorem load_hiatus_merge_spec (entries : List (String × Entry))
    (resp : List (String × Nat)) (hnd : (resp.map Prod.fst).Nodup) :
    mergeDownloads entries resp = entries.map (fun p =>
      match resp.lookup p.1 with
      | none => p
      | some c => if c = 0 then p
        else (p.1, { p.2 with downloads := c, downloads_str := toString c })) ∧
    (mergeDownloads entries resp).map Prod.fst = entries.map Prod.fst := by
  have h1 : mergeDownloads entries resp = entries.map (fun p =>
      match resp.lookup p.1 with
      | none => p
      | some c => if c = 0 then p
        else (p.1, { p.2 with downloads := c, downloads_str := toString c })) := by
    rw [mergeDownloads_eq_map]
    apply List.map_congr_left
    intro p _
    exact elemMerge_eq resp p hnd
  refine ⟨h1, ?_⟩
  rw [h1, List.map_map]
  apply List.map_congr_left
  intro p _
  show (match resp.lookup p.1 with
    | none => p
    | some c => if c = 0 then p
      else (p.1, { p.2 with downloads := c, downloads_str := toString c })).1 = p.1
  cases resp.lookup p.1 with
  | none => rfl
  | some c =>
    by_cases hc : c = 0
    · simp [hc]
    · simp [hc]

/-- Witness for C4 at the spec's concrete example: catalog entries
`a` and `b` with zero counts, response `a ↦ 5, c ↦ 9`; afterwards `a` has
downloads 5, `b` is untouched and `c` is not added. -/
theorem load_hiatus_merge_spec_witness :
    (([("a", (5 : Nat)), ("c", 9)].map Prod.fst).Nodup) ∧
    (mergeDownloads
        [("a", { size := 1, uncompressed_size := 1, has_noise := false, url := "u", dwn_status := DownloadStatus.NotDownloaded, downloads := 0, downloads_str := "" }), ("b", { size := 2, uncompressed_size := 2, has_noise := false, url := "v", dwn_status := DownloadStatus.NotDownloaded, downloads := 0, downloads_str := "" })]
        [("a", 5), ("c", 9)] =
      [("a", { size := 1, uncompressed_size := 1, has_noise := false, url := "u", dwn_status := DownloadStatus.NotDownloaded, downloads := 5, downloads_str := "5" }), ("b", { size := 2, uncompressed_size := 2, has_noise := false, url := "v", dwn_status := DownloadStatus.NotDownloaded, downloads := 0, downloads_str := "" })]) :=
  ⟨by decide, by
    have h := (load_hiatus_merge_spec
      [("a", { size := 1, uncompressed_size := 1, has_noise := false, url := "u", dwn_status := DownloadStatus.NotDownloaded, downloads := 0, downloads_str := "" }), ("b", { size := 2, uncompressed_size := 2, has_noise := false, url := "v", dwn_status := DownloadStatus.NotDownloaded, downloads := 0, downloads_str := "" })]
      [("a", 5), ("c", 9)] (by decide)).1
    rw [h]
    decide⟩

/-! ### Claim C5: the pending-update drain -/

theorem drainOne_filtered_fst (s : DbState) (kv : String × Entry) :
    (drainOne s kv).filtered_entries.map Prod.fst =
      s.filtered_entries.map Prod.fst := by
  show (if imContains s.filtered_entries kv.1 then
      imInsert s.filtered_entries kv.1 kv.2 else s.filtered_entries).map Prod.fst = _
  by_cases h : imContains s.filtered_entries kv.1
  · rw [if_pos h]
    exact map_fst_imInsert_of_contains kv.2 h
  · rw [if_neg h]

theorem drainFold_filtered_fst (l : List (String × Entry)) :
    ∀ s : DbState, (l.foldl drainOne s).filtered_entries.map Prod.fst =
      s.filtered_entries.map Prod.fst := by
  induction l with
  | nil => intro s; rfl
  | cons p rest ih =>
    intro s
    show (rest.foldl drainOne (drainOne s p)).filtered_entries.map Prod.fst = _
    rw [ih (drainOne s p), drainOne_filtered_fst]

theorem drainFold_entries_get_of_not_mem (l : List (String × Entry)) :
    ∀ (s : DbState) (k : String), k ∉ l.map Prod.fst →
      imGet (l.foldl drainOne s).entries k = imGet s.entries k := by
  induction l with
  | nil => intro s k _; rfl
  | cons p rest ih =>
    intro s k hk
    have hne : p.1 ≠ k := fun he => hk (by simp [he])
    show imGet (rest.foldl drainOne (drainOne s p)).entries k = _
    rw [ih (drainOne s p) k (fun hm => hk (by simp at hm ⊢; tauto))]
    exact imGet_imInsert_ne s.entries p.2 hne

theorem drainFold_filtered_get_of_not_mem (l : List (String × Entry)) :
    ∀ (s : DbState) (k : String), k ∉ l.map Prod.fst →
      imGet (l.foldl drainOne s).filtered_entries k = imGet s.filtered_entries k := by
  induction l with
  | nil => intro s k _; rfl
  | cons p rest ih =>
    intro s k hk
    have hne : p.1 ≠ k := fun he => hk (by simp [he])
    show imGet (rest.foldl drainOne (drainOne s p)).filtered_entries k = _
    rw [ih (drainOne s p) k (fun hm => hk (by simp at hm ⊢; tauto))]
    show imGet (if imContains s.filtered_entries p.1 then
      imInsert s.filtered_entries p.1 p.2 else s.filtered_entries) k = _
    by_cases h : imContains s.filtered_entries p.1
    · rw [if_pos h]
      exact imGet_imInsert_ne s.filtered_entries p.2 hne
    · rw [if_neg h]

theorem drainFold_entries_get (l : List (String × Entry)) :
    ∀ s : DbState, (l.map Prod.fst).Nodup →
      ∀ kv ∈ l, imGet (l.foldl drainOne s).entries kv.1 = some kv.2 := by
  induction l with
  | nil => intro s _ kv hkv; cases hkv
  | cons p rest ih =>
    intro s hnd kv hkv
    simp only [List.map_cons, List.nodup_cons] at hnd
    rcases List.mem_cons.mp hkv with rfl | hrest
    · show imGet (rest.foldl drainOne (drainOne s kv)).entries kv.1 = some kv.2
      rw [drainFold_entries_get_of_not_mem rest (drainOne s kv) kv.1 hnd.1]
      exact imGet_imInsert_self s.entries kv.1 kv.2
    · exact ih (drainOne s p) hnd.2 kv hrest

theorem drainFold_filtered_get (l : List (String × Entry)) :
    ∀ s : DbState, (l.map Prod.fst).Nodup →
      ∀ kv ∈ l, imContains s.filtered_entries kv.1 = true →
        imGet (l.foldl drainOne s).filtered_entries kv.1 = some kv.2 := by
  induction l with
  | nil => intro s _ kv hkv; cases hkv
  | cons p rest ih =>
    intro s hnd kv hkv hc
    simp only [List.map_cons, List.nodup_cons] at hnd
    rcases List.mem_cons.mp hkv with rfl | hrest
    · show imGet (rest.foldl drainOne (drainOne s kv)).filtered_entries kv.1 = some kv.2
      rw [drainFold_filtered_get_of_not_mem rest (drainOne s kv) kv.1 hnd.1]
      show imGet (if imContains s.filtered_entries kv.1 then
        imInsert s.filtered_entries kv.1 kv.2 else s.filtered_entries) kv.1 = some kv.2
      rw [if_pos hc]
      exact imGet_imInsert_self s.filtered_entries kv.1 kv.2
    · have hc' : imContains (drainOne s p).filtered_entries kv.1 = true := by
        rw [imContains_eq_true_iff] at hc ⊢
        rw [drainOne_filtered_fst]
        exact hc
      exact ih (drainOne s p) hnd.2 kv hrest hc'

/-- C5: one run of the pending-update drain upserts every pending pair into
the catalog, upserts it into the filtered view exactly when its key is
already present there (a key absent from the view is not added), leaves the
view's key sequence unchanged, and empties the mailbox. -/
theorem update_pending_update_spec (s : DbState)
    (hnd : (s.pending_update.map Prod.fst).Nodup) :
    (update_pending_update s).pending_update = [] ∧
    (∀ kv ∈ s.pending_update,
      imGet (update_pending_update s).entries kv.1 = some kv.2) ∧
    (update_pending_update s).filtered_entries.map Prod.fst =
      s.filtered_entries.map Prod.fst ∧
    (∀ kv ∈ s.pending_update, imContains s.filtered_entries kv.1 = true →
      imGet (update_pending_update s).filtered_entries kv.1 = some kv.2) ∧
    (∀ k, imContains s.filtered_entries k = false →
      imContains (update_pending_update s).filtered_entries k = false) := by
  have hfst : (update_pending_update s).filtered_entries.map Prod.fst =
      s.filtered_entries.map Prod.fst := by
    show (s.pending_update.foldl drainOne s).filtered_entries.map Prod.fst = _
    exact drainFold_filtered_fst s.pending_update s
  refine ⟨rfl, ?_, hfst, ?_, ?_⟩
  · intro kv hkv
    exact drainFold_entries_get s.pending_update s hnd kv hkv
  · intro kv hkv hc
    exact drainFold_filtered_get s.pending_update s hnd kv hkv hc
  · intro k hk
    have h1 := imContains_eq_true_iff (update_pending_update s).filtered_entries k
    have h2 := imContains_eq_true_iff s.filtered_entries k
    cases hres : imContains (update_pending_update s).filtered_entries k with
    | false => rfl
    | true =>
      exfalso
      have hmem := h1.mp hres
      rw [hfst] at hmem
      rw [h2.mpr hmem] at hk
      exact Bool.noConfusion hk

/-- Witness for C5 at the spec's concrete scenario: pending update
`x ↦ Downloaded`, catalog holding a not-downloaded `x`, filtered view not
containing `x`; after the drain the catalog holds the updated `x` and the
view still excludes it. -/
theorem update_pending_update_spec_witness :
    (([("x", { size := 1, uncompressed_size := 1, has_noise := false, url := "u", dwn_status := DownloadStatus.Downloaded ["p"] false, downloads := 0, downloads_str := "" })].map (Prod.fst (α := String) (β := Entry))).Nodup) ∧
    ((update_pending_update
      { entries := [("x", { size := 1, uncompressed_size := 1, has_noise := false, url := "u", dwn_status := DownloadStatus.NotDownloaded, downloads := 0, downloads_str := "" })],
        filtered_entries := [], search_query := "", tags := { noise := false, downloaded := false },
        pending_update := [("x", { size := 1, uncompressed_size := 1, has_noise := false, url := "u", dwn_status := DownloadStatus.Downloaded ["p"] false, downloads := 0, downloads_str := "" })],
        pending_clickpack_delete := [] }).pending_update = [] ∧
      imGet (update_pending_update
      { entries := [("x", { size := 1, uncompressed_size := 1, has_noise := false, url := "u", dwn_status := DownloadStatus.NotDownloaded, downloads := 0, downloads_str := "" })],
        filtered_entries := [], search_query := "", tags := { noise := false, downloaded := false },
        pending_update := [("x", { size := 1, uncompressed_size := 1, has_noise := false, url := "u", dwn_status := DownloadStatus.Downloaded ["p"] false, downloads := 0, downloads_str := "" })],
        pending_clickpack_delete := [] }).entries "x" =
        some { size := 1, uncompressed_size := 1, has_noise := false, url := "u", dwn_status := DownloadStatus.Downloaded ["p"] false, downloads := 0, downloads_str := "" } ∧
      imContains (update_pending_update
      { entries := [("x", { size := 1, uncompressed_size := 1, has_noise := false, url := "u", dwn_status := DownloadStatus.NotDownloaded, downloads := 0, downloads_str := "" })],
        filtered_entries := [], search_query := "", tags := { noise := false, downloaded := false },
        pending_update := [("x", { size := 1, uncompressed_size := 1, has_noise := false, url := "u", dwn_status := DownloadStatus.Downloaded ["p"] false, downloads := 0, downloads_str := "" })],
        pending_clickpack_delete := [] }).filtered_entries "x" = false) := by
  refine ⟨by decide, ?_⟩
  have h := update_pending_update_spec
    { entries := [("x", { size := 1, uncompressed_size := 1, has_noise := false, url := "u", dwn_status := DownloadStatus.NotDownloaded, downloads := 0, downloads_str := "" })],
      filtered_entries := [], search_query := "", tags := { noise := false, downloaded := false },
      pending_update := [("x", { size := 1, uncompressed_size := 1, has_noise := false, url := "u", dwn_status := DownloadStatus.Downloaded ["p"] false, downloads := 0, downloads_str := "" })],
      pending_clickpack_delete := [] } (by decide)
  exact ⟨h.1,
    h.2.1 ("x", { size := 1, uncompressed_size := 1, has_noise := false, url := "u", dwn_status := DownloadStatus.Downloaded ["p"] false, downloads := 0, downloads_str := "" }) (by decide),
    h.2.2.2.2 "x" (by decide)⟩

/-! ### Claim C7: the destination-name collision loop -/

theorem underscores_comm (k : Nat) :
    "_" ++ underscores k = underscores k ++ "_" := by
  induction k with
  | zero =>
    show "_" ++ "" = "" ++ "_"
    rw [String.append_empty, String.empty_append]
  | succ i ih =>
    show "_" ++ (underscores i ++ "_") = (underscores i ++ "_") ++ "_"
    rw [← String.append_assoc, ih]

theorem append_underscores (name : String) (k : Nat) :
    (name ++ "_") ++ underscores k = name ++ underscores (k + 1) := by
  rw [String.append_assoc, underscores_comm]
  rfl

theorem freeName_not_mem (existing : List String) (name : String) :
    freeName existing name ∉ existing := by
  refine freeName.induct existing (fun n => freeName existing n ∉ existing) ?_ ?_ name
  · intro x hx ih
    rw [freeName, dif_pos hx]
    exact ih
  · intro x hx
    rw [freeName, dif_neg hx]
    exact hx

theorem freeName_underscores (existing : List String) (name : String) :
    ∃ k, freeName existing name = name ++ underscores k ∧
      ∀ j, j < k → (name ++ underscores j) ∈ existing := by
  refine freeName.induct existing
    (fun n => ∃ k, freeName existing n = n ++ underscores k ∧
      ∀ j, j < k → (n ++ underscores j) ∈ existing) ?_ ?_ name
  · intro x hx ih
    obtain ⟨k, hk, hall⟩ := ih
    refine ⟨k + 1, ?_, ?_⟩
    · rw [freeName, dif_pos hx, hk, append_underscores]
    · intro j hj
      cases j with
      | zero =>
        show x ++ underscores 0 ∈ existing
        rw [show underscores 0 = "" from rfl, String.append_empty]
        exact hx
      | succ i =>
        rw [← append_underscores]
        exact hall i (by omega)
  · intro x hx
    refine ⟨0, ?_, fun j hj => absurd hj (Nat.not_lt_zero j)⟩
    rw [freeName, dif_neg hx, show underscores 0 = "" from rfl, String.append_empty]

/-- C7: the automatic destination path is the base directory joined with the
entry name extended by the fewest trailing underscores such that no
directory of that name exists; with existing directories `pack` and `pack_`,
entry `pack` gets the path component `pack__`. -/
theorem auto_dest_path_spec (base existing : List String) (name : String) :
    freeName existing name ∉ existing ∧
    (∃ k, freeName existing name = name ++ underscores k ∧
      ∀ j, j < k → (name ++ underscores j) ∈ existing) ∧
    autoDestPath base existing name = base ++ [freeName existing name] ∧
    freeName ["pack", "pack_"] "pack" = "pack__" :=
  ⟨freeName_not_mem existing name, freeName_underscores existing name, rfl,
    by simp [freeName]⟩

end ClickpackDb
